import Mathlib

/-!
Shallow embedding of the feed ingestion / caching / deduplication / ranking
pipeline of the tech-jobs-ai-agent repository.

Source files embedded:
* `src/mastra/utils/keyword-extractor.ts` — `extractKeywords`
* `src/mastra/tools/rss-tool.ts`         — `rssTool.execute` (the cache-based
  variant: short-circuit on empty keywords, feed loop, dedup, filter, score,
  sort, truncate)
* `src/mastra/utils/feed-cache.ts`       — `getCacheFilename`, `isCacheValid`,
  `loadFromCache`, `saveToCache`, `fetchFeedWithCache`, `deduplicateJobs`
* `src/mastra/utils/feed-scheduler.ts`   — `refreshAllFeeds`

External collaborators (the `natural` Porter stemmer, the JavaScript `Date`
parser, the network fetch + RSS parser, and the filesystem) are modelled as
explicit parameters / oracle inputs, so every definition below is a total,
executable Lean function.  Machine numbers are modelled as `Nat`/`Int`; the
JavaScript `NaN` that `new Date(s).getTime()` produces on an unparseable
string is modelled by an explicit `JSNum.nan` constructor.
-/

namespace TechJobs

/-! ## JavaScript string primitives used by the source -/

/-- The characters matched by the JavaScript regex class `\s`
(whitespace, as used in `.replace(/[^\w\s+.#]/g, "")` and `.split(/\s+/)`). -/
def jsIsSpace (c : Char) : Bool :=
  let n := c.toNat
  n == 0x9 || n == 0xA || n == 0xB || n == 0xC || n == 0xD || n == 0x20 ||
  n == 0xA0 || n == 0x1680 || (0x2000 ≤ n && n ≤ 0x200A) ||
  n == 0x2028 || n == 0x2029 || n == 0x202F || n == 0x205F ||
  n == 0x3000 || n == 0xFEFF

/-- The characters matched by the JavaScript regex class `\w`:
`[A-Za-z0-9_]`. -/
def jsIsWordChar (c : Char) : Bool :=
  ('a' ≤ c && c ≤ 'z') || ('A' ≤ c && c ≤ 'Z') || ('0' ≤ c && c ≤ '9') || c == '_'

/-- A character survives `.replace(/[^\w\s+.#]/g, "")`
(the source's comment: keep `.` `+` `#` for tech terms). -/
def keepChar (c : Char) : Bool :=
  jsIsWordChar c || jsIsSpace c || c == '+' || c == '.' || c == '#'

/-- State of the left-to-right scan implementing `String.prototype.split(/\s+/)`. -/
structure SplitState where
  done : List String
  cur : List Char
  lastSep : Bool
deriving Repr

/-- One step of the `split(/\s+/)` scan: a run of separator characters makes a
single cut. -/
def splitStep (p : Char → Bool) (st : SplitState) (c : Char) : SplitState :=
  if p c then
    if st.lastSep then st
    else { done := st.done ++ [String.mk st.cur], cur := [], lastSep := true }
  else
    { done := st.done, cur := st.cur ++ [c], lastSep := false }

/-- JavaScript `s.split(/\s+/)` (on an already-exploded character list):
cuts at each maximal run of whitespace; a leading run yields a leading `""`,
a trailing run a trailing `""`, and `"".split(/\s+/) = [""]`. -/
def jsSplitWs (cs : List Char) : List String :=
  let st := cs.foldl (splitStep jsIsSpace) ⟨[], [], false⟩
  st.done ++ [String.mk st.cur]

/-- `needle` occurs starting at the head of `hay` (character-list version of a
JavaScript index-0 match). -/
def listStartsWith : List Char → List Char → Bool
  | [], _ => true
  | _ :: _, [] => false
  | a :: as, b :: bs => a == b && listStartsWith as bs

/-- `needle` occurs somewhere inside `hay` (character-list version of
JavaScript `String.prototype.includes`). -/
def listHasSub (needle : List Char) : List Char → Bool
  | [] => listStartsWith needle []
  | c :: cs => listStartsWith needle (c :: cs) || listHasSub needle cs

/-- JavaScript `s.includes(pat)` (substring containment; an empty pattern
matches every string). -/
def jsIncludes (s pat : String) : Bool :=
  listHasSub pat.toList s.toList

/-- JavaScript `s.trim()`: strip leading and trailing whitespace. -/
def jsTrim (s : String) : String :=
  String.mk (((s.toList.dropWhile jsIsSpace).reverse.dropWhile jsIsSpace).reverse)

/-- JavaScript `s.toLowerCase()`, applied characterwise (`Char.toLower`
lowercases the ASCII range, which covers every string the claims range
over). -/
def jsToLower (s : String) : String :=
  String.mk (s.toList.map Char.toLower)

/-! ## Keyword extractor (`src/mastra/utils/keyword-extractor.ts`) -/

/-- The stopword set of `extractKeywords`, copied verbatim from the source
(`"about"` appears twice there; for a membership test this is irrelevant). -/
def stopwords : List String := [
  "find","show","latest","remote","job","jobs","for","me","the","a","an",
  "and","or","is","are","was","be","i","want","get","in","on","at","to","from",
  "with","of","by","about","as","you","we","they","your","my","our","their",
  "this","that","can","will","should","could","may","also","then","so","such",
  "here","there","all","any","each","other","some","many","most","few",
  "over","under","up","down","into","out","off","about","after","before",
  "during","while","between","within","without","like","just","now","new",
  "available","opportunity","position","role","apply","application","looking",
  "needed","required","responsibilities","experience","skills","team","work",
  "working","company","companies","organization","industry","fulltime","parttime",
  "contract","freelance","permanent","temporary","immediate","join","hiring",
  "lookingfor","open","opens","posting","post","posted","recent","updated"]

/-- First-occurrence deduplication keyed by `key`, with an accumulator of keys
already seen.  This is the common shape of the source's
`[...new Set(words)]` (keys are the elements themselves) and of
`deduplicateJobs`'s insertion-ordered `Map` keyed by normalized link. -/
def firstWins (key : α → String) : List α → List String → List α
  | [], _ => []
  | x :: xs, seen =>
    if key x ∈ seen then firstWins key xs seen
    else x :: firstWins key xs (key x :: seen)

/-- JavaScript `[...new Set(words)]`: drop later duplicates, keep first
occurrences in order. -/
def jsSetDedup (l : List String) : List String :=
  firstWins id l []

/-- `extractKeywords` from `keyword-extractor.ts`.  The Porter stemmer of the
`natural` npm package is an external library and is passed in as the
parameter `stem`.  Pipeline (in source order): lowercase, strip characters
outside `[\w\s+.#]`, split on whitespace runs, keep tokens of length `> 2`
that are not stopwords, stem, deduplicate. -/
def extractKeywords (stem : String → String) (input : String) : List String :=
  let cleaned := (jsToLower input).toList.filter keepChar
  let words :=
    ((jsSplitWs cleaned).filter
      (fun w => w.length > 2 && !(stopwords.contains w))).map stem
  jsSetDedup words

/-! ## Job data model -/

/-- `CachedJob` / job-listing shape (`feed-cache.ts`, `rss-tool.ts`):
`pubDate` is `string | undefined` in the source. -/
structure CachedJob where
  title : String
  link : String
  description : String
  pubDate : Option String
  source : String
deriving DecidableEq, Repr

/-! ## Cross-feed deduplication (`deduplicateJobs` in `feed-cache.ts`) -/

/-- The deduplication key of `deduplicateJobs`:
`job.link.toLowerCase().trim()`. -/
def linkKey (j : CachedJob) : String :=
  jsTrim (jsToLower j.link)

/-- `deduplicateJobs`: one entry per distinct normalized link, first
occurrence wins, later duplicates discarded; the insertion-ordered `Map`
returns survivors in input order. -/
def deduplicateJobs (allJobs : List CachedJob) : List CachedJob :=
  firstWins linkKey allJobs []

/-! ## Relevance scoring (`rssTool.execute` in `rss-tool.ts`) -/

/-- `keywords.filter(kw => title.includes(kw)).length` with
`title = (job.title || '').toLowerCase()`. -/
def titleMatchCount (keywords : List String) (job : CachedJob) : Nat :=
  (keywords.filter (fun kw => jsIncludes (jsToLower job.title) kw)).length

/-- `keywords.filter(kw => description.includes(kw)).length` with
`description = (job.description || '').toLowerCase()`. -/
def descMatchCount (keywords : List String) (job : CachedJob) : Nat :=
  (keywords.filter (fun kw => jsIncludes (jsToLower job.description) kw)).length

/-- `relevanceScore = (titleMatches * 2) + descMatches`. -/
def relevanceScore (keywords : List String) (job : CachedJob) : Nat :=
  titleMatchCount keywords job * 2 + descMatchCount keywords job

/-- A JavaScript number restricted to what the sort comparator can produce:
an integer, or `NaN` (from `new Date(<unparseable>).getTime()`). -/
inductive JSNum where
  | num : Int → JSNum
  | nan : JSNum
deriving DecidableEq, Repr

/-- JavaScript subtraction on such numbers: anything involving `NaN`
is `NaN`. -/
def jsSub : JSNum → JSNum → JSNum
  | .num a, .num b => .num (a - b)
  | _, _ => .nan

/-- `a.pubDate ? new Date(a.pubDate).getTime() : 0`.  The JavaScript `Date`
parser is external and passed in as `getTime` (returning `.nan` for an
unparseable string).  `undefined` and the falsy `""` both yield the key `0`. -/
def dateKey (getTime : String → JSNum) : Option String → JSNum
  | some s => if s = "" then .num 0 else getTime s
  | none => .num 0

/-- The fields of the transient scored object that the sort comparator reads
(`titleMatches`/`descMatches` are also carried in the source but never read
again, and are stripped with `relevanceScore` after sorting). -/
structure ScoredJob where
  job : CachedJob
  relevanceScore : Nat
deriving DecidableEq, Repr

/-- The sort comparator of `rssTool.execute`:
relevance score descending, then `dateB - dateA`. -/
def jsCompare (getTime : String → JSNum) (a b : ScoredJob) : JSNum :=
  if b.relevanceScore ≠ a.relevanceScore then
    .num ((b.relevanceScore : Int) - (a.relevanceScore : Int))
  else
    jsSub (dateKey getTime b.job.pubDate) (dateKey getTime a.job.pubDate)

/-- `a` may stay in front of `b` under the comparator: the comparator value is
`≤ 0`, or is `NaN` — ECMAScript engines treat a `NaN` comparator result like
`0`, i.e. leave the pair in its current order. -/
def jsCmpLe (getTime : String → JSNum) (a b : ScoredJob) : Bool :=
  match jsCompare getTime a b with
  | .num n => decide (n ≤ 0)
  | .nan => true

/-- Stable insertion of `x` into `l`: `x` goes after every element that may
stay in front of it.  Together with `jsSort` below this models
`Array.prototype.sort`, which ECMAScript requires to be a stable sort; for
the inconsistent comparator values produced by `NaN` the model leaves the
compared pair in its current order, matching how engines consume a
comparator result that is neither `< 0` nor `> 0`. -/
def insertStable (le : α → α → Bool) (x : α) : List α → List α
  | [] => [x]
  | y :: ys => if le y x then y :: insertStable le x ys else x :: y :: ys

/-- Stable sort used to model `scoredJobs.sort(comparator)`. -/
def jsSort (le : α → α → Bool) (l : List α) : List α :=
  l.foldl (fun acc x => insertStable le x acc) []

/-! ## Pipeline entry point (`rssTool.execute` in `rss-tool.ts`) -/

/-- The `{ jobs, total, query }` object returned by `rssTool.execute`. -/
structure SearchResult where
  jobs : List CachedJob
  total : Nat
  query : String
deriving DecidableEq, Repr

/-- The ranking tail of `rssTool.execute`: score every matched job, then sort
with the comparator. -/
def rankedJobs (getTime : String → JSNum) (keywords : List String)
    (matchedJobs : List CachedJob) : List ScoredJob :=
  jsSort (jsCmpLe getTime)
    (matchedJobs.map (fun job => ⟨job, relevanceScore keywords job⟩))

/-- `rssTool.execute` (the cache-based version in
`src/mastra/tools/rss-tool.ts`).  Parameters standing for external effects:
`stem` (the `natural` Porter stemmer), `getTime` (the JavaScript `Date`
parser), `feeds` (`rssFeeds`, the configured feed list), and `fetchRes`
(the per-feed result of `fetchFeedWithCache`; that function never rejects —
see `fetchFeedWithCache` below — so the `try`/`catch` around the feed loop
never fires and each feed simply contributes its list).  `limit` is the
`slice(0, limit)` bound. -/
def executeModel (stem : String → String) (getTime : String → JSNum)
    (feeds : List String) (fetchRes : String → List CachedJob)
    (query : String) (limit : Nat) : SearchResult :=
  let keywords := extractKeywords stem query
  if keywords.length = 0 then
    { jobs := [], total := 0, query := query }
  else
    let allJobs := (feeds.map fetchRes).flatten
    let uniqueJobs := deduplicateJobs allJobs
    let matchedJobs := uniqueJobs.filter
      (fun job => titleMatchCount keywords job + descMatchCount keywords job > 0)
    let sortedJobs := ((rankedJobs getTime keywords matchedJobs).take limit).map (·.job)
    { jobs := sortedJobs, total := sortedJobs.length, query := query }

/-! ## Feed cache (`src/mastra/utils/feed-cache.ts`)

Filesystem and network effects are oracle inputs:
`Except Unit _` models a JavaScript operation that either produces a value or
throws. -/

/-- `CACHE_TTL = 4 * 60 * 60 * 1000` (4 hours in milliseconds). -/
def CACHE_TTL : Int := 4 * 60 * 60 * 1000

deriving instance DecidableEq for Except

/-- The on-disk JSON cache object written by `saveToCache`:
`{ feedUrl, timestamp, jobs }`. -/
structure FeedCache where
  feedUrl : String
  timestamp : Int
  jobs : List CachedJob
deriving DecidableEq, Repr

/-- What the filesystem holds for one feed's cache file:
`stat` is the `fs.stat` outcome (`.ok mtimeMs`, or `.error` when the file is
missing), `content` the `fs.readFile` + `JSON.parse` outcome (`.error` when
the file is unreadable or corrupt). -/
structure CacheState where
  stat : Except Unit Int
  content : Except Unit FeedCache
deriving DecidableEq, Repr

/-- The cache state right after a successful `saveToCache` at time `T`
(`fs.writeFile` sets the file's mtime to the write time, and the JSON body
carries `timestamp: Date.now()`). -/
def writtenEntry (feedUrl : String) (T : Int) (jobs : List CachedJob) : CacheState :=
  { stat := .ok T, content := .ok ⟨feedUrl, T, jobs⟩ }

/-- `isCacheValid`: `age = Date.now() - stats.mtimeMs; age < CACHE_TTL`;
a failing `fs.stat` (missing file) is caught and yields `false`. -/
def isCacheValid (now : Int) (st : CacheState) : Bool :=
  match st.stat with
  | .ok mtime => decide (now - mtime < CACHE_TTL)
  | .error _ => false

/-- `loadFromCache`: `null` when the cache is invalid; otherwise read and
parse the file, with any read/parse error caught and turned into `null`. -/
def loadFromCache (now : Int) (st : CacheState) : Option (List CachedJob) :=
  if isCacheValid now st then
    match st.content with
    | .ok cache => some cache.jobs
    | .error _ => none
  else none

/-- One item of a parsed feed (`@rowanmanning/feed-parser`): every field may
be absent.  `published` is a `Date`; only its `toISOString()` rendering is
consumed, so the model stores that string directly. -/
structure FeedItem where
  title : Option String
  url : Option String
  description : Option String
  published : Option String
deriving DecidableEq, Repr

/-- The parsed feed object: `feed.items` may be missing. -/
structure JsFeed where
  items : Option (List FeedItem)
deriving DecidableEq, Repr

/-- JavaScript `o || default` on an optional string: `undefined` and the
falsy `""` both fall back to the default. -/
def jsOrDefault (o : Option String) (d : String) : String :=
  match o with
  | some s => if s = "" then d else s
  | none => d

/-- The job record built from one feed item inside `fetchFeedWithCache`:
`title: item.title || 'No title'`, `link: item.url || ''`,
`description: item.description?.substring(0, 500) || 'No description'`,
`pubDate: item.published ? item.published.toISOString() : undefined`. -/
def mkJob (feedUrl : String) (item : FeedItem) : CachedJob :=
  { title := jsOrDefault item.title "No title"
    link := jsOrDefault item.url ""
    description := jsOrDefault (item.description.map (fun s => String.mk (s.toList.take 500))) "No description"
    pubDate := item.published
    source := feedUrl }

/-- The external effects of one `fetchFeedWithCache` call: the clock reading,
the `axios.get` + `parseFeed` outcome (`.error` for a network error, timeout,
non-2xx status or a parse failure), and whether the `fs.writeFile` in
`saveToCache` succeeds. -/
structure FetchEnv where
  now : Int
  net : Except Unit JsFeed
  writeOk : Bool
deriving DecidableEq, Repr

/-- The observable outcome of one `fetchFeedWithCache` call: the returned job
list, whether a live network fetch was performed, and the cache file's state
afterwards. -/
structure FFWCResult where
  jobs : List CachedJob
  fetched : Bool
  cacheAfter : CacheState
deriving DecidableEq, Repr

/-- `fetchFeedWithCache`: serve a valid readable cache without fetching;
otherwise fetch live — on success build the job records, attempt a
best-effort cache write (`saveToCache` swallows write errors) and return the
fresh jobs; on any fetch/parse error the `catch` returns `[]`.  Every fallible
operation in the source sits inside a `try`/`catch`, so the function is total
— the returned promise never rejects. -/
def fetchFeedWithCache (feedUrl : String) (st : CacheState) (env : FetchEnv) :
    FFWCResult :=
  match loadFromCache env.now st with
  | some jobs => { jobs := jobs, fetched := false, cacheAfter := st }
  | none =>
    match env.net with
    | .ok feed =>
      let items := match feed.items with
        | some l => l
        | none => []
      let jobs := items.map (mkJob feedUrl)
      let stAfter := if env.writeOk then writtenEntry feedUrl env.now jobs else st
      { jobs := jobs, fetched := true, cacheAfter := stAfter }
    | .error _ => { jobs := [], fetched := true, cacheAfter := st }

/-! ## Cache filename (`getCacheFilename` in `feed-cache.ts`) -/

/-- UTF-8 encoding of one character (what `Buffer.from(feedUrl)` does
per code point). -/
def utf8EncodeChar (c : Char) : List Nat :=
  let n := c.toNat
  if n < 0x80 then [n]
  else if n < 0x800 then [0xC0 + n / 64, 0x80 + n % 64]
  else if n < 0x10000 then [0xE0 + n / 4096, 0x80 + n / 64 % 64, 0x80 + n % 64]
  else [0xF0 + n / 262144, 0x80 + n / 4096 % 64, 0x80 + n / 64 % 64, 0x80 + n % 64]

/-- `Buffer.from(feedUrl)`: the UTF-8 bytes of the string. -/
def utf8Bytes (s : String) : List Nat :=
  (s.toList.map utf8EncodeChar).flatten

/-- The standard base64 alphabet. -/
def base64Alphabet : List Char :=
  "ABCDEFGHIJKLMNOPQRSTUVWXYZabcdefghijklmnopqrstuvwxyz0123456789+/".toList

/-- The base64 digit for a 6-bit value. -/
def b64Char (n : Nat) : Char :=
  base64Alphabet.getD n 'A'

/-- `buffer.toString('base64')`: RFC 4648 base64 with `=` padding. -/
def base64Encode : List Nat → List Char
  | b0 :: b1 :: b2 :: rest =>
    let n := b0 * 65536 + b1 * 256 + b2
    b64Char (n / 262144) :: b64Char (n / 4096 % 64) ::
      b64Char (n / 64 % 64) :: b64Char (n % 64) :: base64Encode rest
  | [b0, b1] =>
    let n := b0 * 65536 + b1 * 256
    [b64Char (n / 262144), b64Char (n / 4096 % 64), b64Char (n / 64 % 64), '=']
  | [b0] =>
    let n := b0 * 65536
    [b64Char (n / 262144), b64Char (n / 4096 % 64), '=', '=']
  | [] => []

/-- `.replace(/[/+=]/g, '_')`, applied characterwise. -/
def fsSafeChar (c : Char) : Char :=
  if c = '/' ∨ c = '+' ∨ c = '=' then '_' else c

/-- The hash part of `getCacheFilename`:
`Buffer.from(feedUrl).toString('base64').replace(/[/+=]/g, '_')`. -/
def cacheHash (feedUrl : String) : String :=
  String.mk ((base64Encode (utf8Bytes feedUrl)).map fsSafeChar)

/-- `getCacheFilename` minus the constant `CACHE_DIR` prefix that
`path.join` prepends (the prefix is the same for every URL, so it is
irrelevant to distinctness): `` `${hash}.json` ``. -/
def getCacheFilename (feedUrl : String) : String :=
  cacheHash feedUrl ++ ".json"

/-! ## Feed scheduler (`src/mastra/utils/feed-scheduler.ts`) -/

/-- The `{ refreshed, failed }` report of `refreshAllFeeds`. -/
structure RefreshReport where
  refreshed : Nat
  failed : Nat
deriving DecidableEq, Repr

/-- The batch slicing of `refreshAllFeeds`:
`for (let i = 0; i < rssFeeds.length; i += batchSize) rssFeeds.slice(i, i + batchSize)`
with `batchSize = 5`. -/
def chunks5 : List α → List (List α)
  | [] => []
  | x :: xs => ((x :: xs).take 5) :: chunks5 ((x :: xs).drop 5)
termination_by l => l.length
decreasing_by simp [List.length_drop]; omega

/-- The settled per-feed promises of one `refreshAllFeeds` pass: each batch is
run through `Promise.allSettled(batch.map(feedUrl => fetchFeedWithCache(feedUrl)))`.
`fetchFeedWithCache` is a total function (its promise never rejects), so each
settled result is a fulfilled `.ok`.  `env` gives each feed's cache state and
fetch environment. -/
def tickSettled (feeds : List String) (env : String → CacheState × FetchEnv) :
    List (Except Unit FFWCResult) :=
  ((chunks5 feeds).map
    (fun batch => batch.map
      (fun feedUrl => Except.ok (fetchFeedWithCache feedUrl (env feedUrl).1 (env feedUrl).2)))).flatten

/-- The counting loop of `refreshAllFeeds`: a fulfilled result increments
`refreshed`, a rejected one `failed`. -/
def settleCounts (results : List (Except Unit FFWCResult)) : RefreshReport :=
  results.foldl
    (fun r res => match res with
      | .ok _ => { r with refreshed := r.refreshed + 1 }
      | .error _ => { r with failed := r.failed + 1 })
    ⟨0, 0⟩

/-- `refreshAllFeeds`: walk the configured feeds in batches of 5, settle each
batch, count successes and failures.  This is also what every scheduler tick
runs (`cron.schedule(..., async () => await refreshAllFeeds())`). -/
def refreshAllFeeds (feeds : List String) (env : String → CacheState × FetchEnv) :
    RefreshReport :=
  settleCounts (tickSettled feeds env)

/-! ## Helper lemmas about first-occurrence deduplication -/

theorem firstWins_sublist (key : α → String) :
    ∀ (l : List α) (seen : List String), List.Sublist (firstWins key l seen) l := by
  intro l
  induction l with
  | nil => intro seen; simp [firstWins]
  | cons a as ih =>
    intro seen
    rw [firstWins]
    by_cases ha : key a ∈ seen
    · rw [if_pos ha]
      exact (ih seen).cons a
    · rw [if_neg ha]
      exact (ih (key a :: seen)).cons₂ a

theorem mem_firstWins (key : α → String) :
    ∀ (l : List α) (seen : List String) (x : α), x ∈ firstWins key l seen →
      key x ∉ seen ∧ l.find? (fun y => key y == key x) = some x := by
  intro l
  induction l with
  | nil => intro seen x hx; simp [firstWins] at hx
  | cons a as ih =>
    intro seen x hx
    rw [firstWins] at hx
    by_cases ha : key a ∈ seen
    · rw [if_pos ha] at hx
      obtain ⟨hns, hfind⟩ := ih seen x hx
      have hne : (key a == key x) = false := by
        simp only [beq_eq_false_iff_ne, ne_eq]
        intro h
        exact hns (h ▸ ha)
      refine ⟨hns, ?_⟩
      simp only [List.find?, hne]
      exact hfind
    · rw [if_neg ha] at hx
      rcases List.mem_cons.mp hx with rfl | hx'
      · refine ⟨ha, ?_⟩
        simp [List.find?]
      · obtain ⟨hns, hfind⟩ := ih _ x hx'
        have hxa : key x ≠ key a := fun h => hns (by simp [h])
        have hxseen : key x ∉ seen := fun h => hns (List.mem_cons_of_mem _ h)
        refine ⟨hxseen, ?_⟩
        have hne : (key a == key x) = false := by
          simp only [beq_eq_false_iff_ne, ne_eq]
          exact fun h => hxa h.symm
        simp only [List.find?, hne]
        exact hfind

theorem firstWins_keys_nodup (key : α → String) :
    ∀ (l : List α) (seen : List String),
      ((firstWins key l seen).map key).Nodup := by
  intro l
  induction l with
  | nil => intro seen; simp [firstWins]
  | cons a as ih =>
    intro seen
    rw [firstWins]
    by_cases ha : key a ∈ seen
    · rw [if_pos ha]; exact ih seen
    · rw [if_neg ha]
      simp only [List.map_cons, List.nodup_cons]
      refine ⟨?_, ih (key a :: seen)⟩
      intro hmem
      obtain ⟨y, hy, hky⟩ := List.mem_map.mp hmem
      have := (mem_firstWins key as (key a :: seen) y hy).1
      exact this (by simp [hky])

theorem firstWins_covers (key : α → String) :
    ∀ (l : List α) (seen : List String) (x : α), x ∈ l →
      key x ∈ seen ∨ ∃ y ∈ firstWins key l seen, key y = key x := by
  intro l
  induction l with
  | nil => intro seen x hx; simp at hx
  | cons a as ih =>
    intro seen x hx
    rw [firstWins]
    by_cases ha : key a ∈ seen
    · rw [if_pos ha]
      rcases List.mem_cons.mp hx with rfl | hx'
      · exact Or.inl ha
      · exact ih seen x hx'
    · rw [if_neg ha]
      rcases List.mem_cons.mp hx with rfl | hx'
      · exact Or.inr ⟨x, List.mem_cons_self _ _, rfl⟩
      · rcases ih (key a :: seen) x hx' with hseen | ⟨y, hy, hky⟩
        · rcases List.mem_cons.mp hseen with heq | hseen'
          · exact Or.inr ⟨a, List.mem_cons_self _ _, heq.symm⟩
          · exact Or.inl hseen'
        · exact Or.inr ⟨y, List.mem_cons_of_mem _ hy, hky⟩

theorem firstWins_eq_self (key : α → String) :
    ∀ (l : List α) (seen : List String), (l.map key).Nodup →
      (∀ x ∈ l, key x ∉ seen) → firstWins key l seen = l := by
  intro l
  induction l with
  | nil => intro seen _ _; simp [firstWins]
  | cons a as ih =>
    intro seen hnd hseen
    have ha : key a ∉ seen := hseen a (List.mem_cons_self _ _)
    rw [firstWins, if_neg ha]
    simp only [List.map_cons, List.nodup_cons] at hnd
    congr 1
    refine ih (key a :: seen) hnd.2 ?_
    intro x hx hmem
    rcases List.mem_cons.mp hmem with heq | hmem'
    · exact hnd.1 (heq ▸ List.mem_map_of_mem key hx)
    · exact hseen x (List.mem_cons_of_mem _ hx) hmem'

/-! ## Claim theorems -/

/-- Claim C1: for every query whose extracted keyword set is empty, the
pipeline entry point returns `{ jobs := [], total := 0, query }`, whatever
the configured feeds hold and whatever every feed would return — so the
result is produced without consulting any feed, and an empty keyword set is
never treated as matching everything. -/
theorem empty_keywords_short_circuit
    (stem : String → String) (getTime : String → JSNum)
    (feeds : List String) (fetchRes : String → List CachedJob)
    (query : String) (limit : Nat)
    (h : extractKeywords stem query = []) :
    executeModel stem getTime feeds fetchRes query limit =
      { jobs := [], total := 0, query := query } := by
  rw [executeModel, h]
  simp

/-- Witness for C1: the query `"find jobs"` consists only of stopwords, its
keyword set is empty, and the pipeline returns the empty result even though
the single configured feed holds a job. -/
theorem empty_keywords_short_circuit_witness :
    extractKeywords id "find jobs" = [] ∧
    executeModel id (fun _ => JSNum.nan) ["f"]
      (fun _ => [⟨"flutter dev", "a", "", none, "f"⟩]) "find jobs" 10 =
      { jobs := [], total := 0, query := "find jobs" } :=
  ⟨by decide,
   empty_keywords_short_circuit id (fun _ => JSNum.nan) ["f"]
     (fun _ => [⟨"flutter dev", "a", "", none, "f"⟩]) "find jobs" 10 (by decide)⟩

/-- Claim C5: `deduplicateJobs` returns, in input order, exactly one entry
per distinct normalized link (compared lowercased and trimmed): the output is
a subsequence of the input, its normalized links are pairwise distinct, every
input link is represented, and each surviving entry is the **first** input
entry carrying its normalized link — so when the same link appears in an
earlier feed A and a later feed B of the concatenation, the survivor is the
feed-A entry (`source` = feed A). -/
theorem deduplicateJobs_first_occurrence (l : List CachedJob) :
    List.Sublist (deduplicateJobs l) l ∧
    ((deduplicateJobs l).map linkKey).Nodup ∧
    (∀ j ∈ l, ∃ j' ∈ deduplicateJobs l, linkKey j' = linkKey j) ∧
    (∀ j ∈ deduplicateJobs l,
      l.find? (fun y => linkKey y == linkKey j) = some j) := by
  refine ⟨firstWins_sublist linkKey l [], firstWins_keys_nodup linkKey l [], ?_, ?_⟩
  · intro j hj
    rcases firstWins_covers linkKey l [] j hj with hmem | h
    · simp at hmem
    · exact h
  · intro j hj
    exact (mem_firstWins linkKey l [] j hj).2

/-- Witness for C5: the same link (`"A "` vs `"a"`, equal after lowercasing
and trimming) appears first in feed A's entry and later in feed B's; the
survivor is the feed-A entry. -/
theorem deduplicateJobs_first_occurrence_witness :
    deduplicateJobs
        [⟨"t", "A ", "d", none, "feedA"⟩, ⟨"t2", "a", "d", none, "feedB"⟩] =
      [⟨"t", "A ", "d", none, "feedA"⟩] ∧
    (∃ j' ∈ deduplicateJobs
        [⟨"t", "A ", "d", none, "feedA"⟩, ⟨"t2", "a", "d", none, "feedB"⟩],
      linkKey j' = linkKey (⟨"t2", "a", "d", none, "feedB"⟩ : CachedJob)) ∧
    List.find?
        (fun y => linkKey y == linkKey (⟨"t", "A ", "d", none, "feedA"⟩ : CachedJob))
        [⟨"t", "A ", "d", none, "feedA"⟩, ⟨"t2", "a", "d", none, "feedB"⟩] =
      some ⟨"t", "A ", "d", none, "feedA"⟩ := by
  refine ⟨by decide, ?_, ?_⟩
  · exact (deduplicateJobs_first_occurrence
      [⟨"t", "A ", "d", none, "feedA"⟩, ⟨"t2", "a", "d", none, "feedB"⟩]).2.2.1
      ⟨"t2", "a", "d", none, "feedB"⟩ (by decide)
  · exact (deduplicateJobs_first_occurrence
      [⟨"t", "A ", "d", none, "feedA"⟩, ⟨"t2", "a", "d", none, "feedB"⟩]).2.2.2
      ⟨"t", "A ", "d", none, "feedA"⟩ (by decide)

/-- Claim C9: deduplication by link is idempotent — applying
`deduplicateJobs` twice yields the same list as applying it once. -/
theorem deduplicateJobs_idempotent (l : List CachedJob) :
    deduplicateJobs (deduplicateJobs l) = deduplicateJobs l := by
  have hnd : ((deduplicateJobs l).map linkKey).Nodup :=
    firstWins_keys_nodup linkKey l []
  exact firstWins_eq_self linkKey (deduplicateJobs l) [] hnd (by simp)

/-- Claim C6: a cache entry written at time `T` is served verbatim and
without any network fetch at every time with `now - T < 4h`; once
`now - T ≥ 4h` the entry is treated as absent — a live refetch is triggered
and the returned jobs come only from that fetch (fresh items on success, `[]`
on failure), never from the stale entry. -/
theorem cache_ttl_behavior (feedUrl : String) (T : Int) (jobs : List CachedJob)
    (env : FetchEnv) :
    (env.now - T < CACHE_TTL →
      fetchFeedWithCache feedUrl (writtenEntry feedUrl T jobs) env =
        { jobs := jobs, fetched := false,
          cacheAfter := writtenEntry feedUrl T jobs }) ∧
    (CACHE_TTL ≤ env.now - T →
      (fetchFeedWithCache feedUrl (writtenEntry feedUrl T jobs) env).fetched = true ∧
      (env.net = .error () →
        (fetchFeedWithCache feedUrl (writtenEntry feedUrl T jobs) env).jobs = []) ∧
      (∀ feed, env.net = .ok feed →
        (fetchFeedWithCache feedUrl (writtenEntry feedUrl T jobs) env).jobs =
          (match feed.items with
            | some l => l
            | none => []).map (mkJob feedUrl))) := by
  constructor
  · intro hlt
    simp [fetchFeedWithCache, loadFromCache, isCacheValid, writtenEntry, hlt]
  · intro hge
    have hvalid : isCacheValid env.now (writtenEntry feedUrl T jobs) = false := by
      simp only [isCacheValid, writtenEntry, decide_eq_false_iff_not, not_lt]
      exact hge
    have hload : loadFromCache env.now (writtenEntry feedUrl T jobs) = none := by
      rw [loadFromCache, hvalid]
      simp
    refine ⟨?_, ?_, ?_⟩
    · rw [fetchFeedWithCache, hload]
      cases env.net <;> simp
    · intro hnet
      rw [fetchFeedWithCache, hload, hnet]
    · intro feed hnet
      rw [fetchFeedWithCache, hload, hnet]

/-- Witness for C6: a cache entry written at time `0` holding one job is
served without fetching at `now = CACHE_TTL - 1`, and at `now = CACHE_TTL`
(exactly 4 hours) a live refetch is triggered and a failing fetch yields
`[]`, not the stale job. -/
theorem cache_ttl_behavior_witness :
    fetchFeedWithCache "u" (writtenEntry "u" 0 [⟨"t", "l", "d", none, "u"⟩])
        ⟨CACHE_TTL - 1, .error (), true⟩ =
      { jobs := [⟨"t", "l", "d", none, "u"⟩], fetched := false,
        cacheAfter := writtenEntry "u" 0 [⟨"t", "l", "d", none, "u"⟩] } ∧
    (fetchFeedWithCache "u" (writtenEntry "u" 0 [⟨"t", "l", "d", none, "u"⟩])
        ⟨CACHE_TTL, .error (), true⟩).fetched = true ∧
    (fetchFeedWithCache "u" (writtenEntry "u" 0 [⟨"t", "l", "d", none, "u"⟩])
        ⟨CACHE_TTL, .error (), true⟩).jobs = [] :=
  ⟨(cache_ttl_behavior "u" 0 [⟨"t", "l", "d", none, "u"⟩]
      ⟨CACHE_TTL - 1, .error (), true⟩).1 (by decide),
   ((cache_ttl_behavior "u" 0 [⟨"t", "l", "d", none, "u"⟩]
      ⟨CACHE_TTL, .error (), true⟩).2 (by decide)).1,
   ((cache_ttl_behavior "u" 0 [⟨"t", "l", "d", none, "u"⟩]
      ⟨CACHE_TTL, .error (), true⟩).2 (by decide)).2.1 rfl⟩

/-- Claim C7: `fetchFeedWithCache` is a total function of its oracle inputs
(every fallible operation of the source sits in a `try`/`catch`, so it never
throws); on a cache miss a fetch/parse failure yields the empty list with the
cache untouched, an unreadable/corrupt cache file falls through to a live
fetch, and a cache-write failure after a successful fetch still returns the
freshly fetched listings to the caller (with the cache left as it was). -/
theorem fetchFeedWithCache_error_handling (feedUrl : String) (st : CacheState)
    (env : FetchEnv) :
    (loadFromCache env.now st = none → env.net = .error () →
      fetchFeedWithCache feedUrl st env =
        { jobs := [], fetched := true, cacheAfter := st }) ∧
    (st.content = .error () →
      (fetchFeedWithCache feedUrl st env).fetched = true) ∧
    (env.writeOk = false → loadFromCache env.now st = none →
      ∀ feed, env.net = .ok feed →
        fetchFeedWithCache feedUrl st env =
          { jobs := (match feed.items with
              | some l => l
              | none => []).map (mkJob feedUrl),
            fetched := true, cacheAfter := st }) := by
  refine ⟨?_, ?_, ?_⟩
  · intro hload hnet
    rw [fetchFeedWithCache, hload, hnet]
  · intro hcontent
    have hload : loadFromCache env.now st = none := by
      rw [loadFromCache, hcontent]
      cases h : isCacheValid env.now st <;> simp
    rw [fetchFeedWithCache, hload]
    cases env.net <;> simp
  · intro hw hload feed hnet
    rw [fetchFeedWithCache, hload, hnet]
    simp [hw]

/-- Witness for C7: with no usable cache, a failed fetch returns `[]`; a
valid-mtime but corrupt cache file triggers a live fetch; and with a failed
cache write the freshly fetched item is still returned. -/
theorem fetchFeedWithCache_error_handling_witness :
    fetchFeedWithCache "u" ⟨.error (), .error ()⟩ ⟨0, .error (), true⟩ =
      { jobs := [], fetched := true, cacheAfter := ⟨.error (), .error ()⟩ } ∧
    (fetchFeedWithCache "u" ⟨.ok 0, .error ()⟩ ⟨1, .error (), true⟩).fetched = true ∧
    fetchFeedWithCache "u" ⟨.error (), .error ()⟩
        ⟨0, .ok ⟨some [⟨some "T", some "L", some "D", none⟩]⟩, false⟩ =
      { jobs := [⟨"T", "L", "D", none, "u"⟩], fetched := true,
        cacheAfter := ⟨.error (), .error ()⟩ } := by
  refine ⟨?_, ?_, ?_⟩
  · exact (fetchFeedWithCache_error_handling "u" ⟨.error (), .error ()⟩
      ⟨0, .error (), true⟩).1 (by decide) rfl
  · exact (fetchFeedWithCache_error_handling "u" ⟨.ok 0, .error ()⟩
      ⟨1, .error (), true⟩).2.1 rfl
  · have := (fetchFeedWithCache_error_handling "u" ⟨.error (), .error ()⟩
      ⟨0, .ok ⟨some [⟨some "T", some "L", some "D", none⟩]⟩, false⟩).2.2
      rfl (by decide) ⟨some [⟨some "T", some "L", some "D", none⟩]⟩ rfl
    rw [this]
    decide

/-- Every batch of 5 concatenates back to the original feed list. -/
theorem chunks5_flatten : ∀ (l : List α), (chunks5 l).flatten = l := by
  intro l
  induction l using chunks5.induct with
  | case1 => simp [chunks5]
  | case2 x xs ih =>
    rw [chunks5]
    simp only [List.flatten_cons, ih]
    exact List.take_append_drop 5 (x :: xs)

/-- Counting a list of only-fulfilled settled results. -/
theorem settleCounts_all_ok (g : α → FFWCResult) :
    ∀ (l : List α) (a b : Nat),
      List.foldl
        (fun (r : RefreshReport) (res : Except Unit FFWCResult) => match res with
          | .ok _ => { r with refreshed := r.refreshed + 1 }
          | .error _ => { r with failed := r.failed + 1 })
        (⟨a, b⟩ : RefreshReport) (l.map (fun x => Except.ok (g x))) =
      ⟨a + l.length, b⟩ := by
  intro l
  induction l with
  | nil => intro a b; simp
  | cons x xs ih =>
    intro a b
    simp only [List.map_cons, List.foldl_cons, List.length_cons]
    rw [ih (a + 1) b]
    congr 1
    omega

/-- A tick's settled results are one fulfilled `fetchFeedWithCache` result per
configured feed, in configured order. -/
theorem tickSettled_eq_map (feeds : List String)
    (env : String → CacheState × FetchEnv) :
    tickSettled feeds env =
      feeds.map (fun u => Except.ok (fetchFeedWithCache u (env u).1 (env u).2)) := by
  rw [tickSettled, ← List.map_flatten, chunks5_flatten]

/-- Claim C10: `fetchFeedWithCache` never rejects (it is total on its oracle
inputs), so every settled per-feed promise of `refreshAllFeeds` is fulfilled:
the report is always `{ refreshed := number of configured feeds, failed := 0 }`,
whatever each feed's cache state or network outcome is — per-feed fetch
failures are invisible in the scheduler's success/failure report. -/
theorem refreshAllFeeds_report (feeds : List String)
    (env : String → CacheState × FetchEnv) :
    refreshAllFeeds feeds env = ⟨feeds.length, 0⟩ := by
  rw [refreshAllFeeds, tickSettled_eq_map, settleCounts]
  have := settleCounts_all_ok
    (fun u => fetchFeedWithCache u (env u).1 (env u).2) feeds 0 0
  simpa using this

/-- Claim C2 is false on the code: a scheduler tick runs `refreshAllFeeds`,
which calls plain `fetchFeedWithCache` per feed — not a forced refresh.
Concrete counterexample: one configured feed whose cache entry was written at
time `0` and holds one job; at tick time `1` (well within the 4-hour TTL) the
network would succeed and the cache write would succeed, yet the tick serves
the cached job with `fetched = false` and leaves the cache file untouched —
no live refetch, no overwrite. -/
theorem scheduler_tick_no_force_refresh :
    tickSettled ["u"]
        (fun _ => (writtenEntry "u" 0 [⟨"cached", "l", "d", none, "u"⟩],
                   ⟨1, .ok ⟨some [⟨some "fresh", some "L", some "D", none⟩]⟩, true⟩)) =
      [Except.ok
        { jobs := [⟨"cached", "l", "d", none, "u"⟩], fetched := false,
          cacheAfter := writtenEntry "u" 0 [⟨"cached", "l", "d", none, "u"⟩] }] := by
  rw [tickSettled_eq_map]
  decide

/-- Claim C2, amended: on every scheduler tick (and in `refreshAllFeeds`),
`fetchFeedWithCache` is invoked once for every configured feed, in batches of
5 — but this refreshes a feed only when its cache entry is missing, expired
(4-hour TTL) or unreadable; a feed whose entry is still valid is served from
cache with no live refetch and no cache overwrite. -/
theorem tick_refreshes_only_stale :
    (∀ (feeds : List String) (env : String → CacheState × FetchEnv),
      tickSettled feeds env =
        feeds.map (fun u => Except.ok (fetchFeedWithCache u (env u).1 (env u).2))) ∧
    (∀ (feedUrl : String) (st : CacheState) (fenv : FetchEnv)
        (js : List CachedJob), loadFromCache fenv.now st = some js →
      fetchFeedWithCache feedUrl st fenv =
        { jobs := js, fetched := false, cacheAfter := st }) ∧
    (∀ (feedUrl : String) (st : CacheState) (fenv : FetchEnv),
      loadFromCache fenv.now st = none →
      (fetchFeedWithCache feedUrl st fenv).fetched = true) := by
  refine ⟨tickSettled_eq_map, ?_, ?_⟩
  · intro feedUrl st fenv js hload
    rw [fetchFeedWithCache, hload]
  · intro feedUrl st fenv hload
    rw [fetchFeedWithCache, hload]
    cases fenv.net <;> simp

/-- Witness for the amended C2: the two-feed tick maps both feeds through
`fetchFeedWithCache`; a valid cached entry is served unfetched and an expired
one is refetched. -/
theorem tick_refreshes_only_stale_witness :
    tickSettled ["a", "b"]
        (fun u => (writtenEntry u 0 [], ⟨1, .error (), true⟩)) =
      ["a", "b"].map
        (fun u => Except.ok
          (fetchFeedWithCache u (writtenEntry u 0 [])  ⟨1, .error (), true⟩)) ∧
    fetchFeedWithCache "u" (writtenEntry "u" 0 [⟨"t", "l", "d", none, "u"⟩])
        ⟨1, .error (), true⟩ =
      { jobs := [⟨"t", "l", "d", none, "u"⟩], fetched := false,
        cacheAfter := writtenEntry "u" 0 [⟨"t", "l", "d", none, "u"⟩] } ∧
    (fetchFeedWithCache "u" ⟨.error (), .error ()⟩ ⟨1, .error (), true⟩).fetched
      = true :=
  ⟨tick_refreshes_only_stale.1 ["a", "b"]
      (fun u => (writtenEntry u 0 [], ⟨1, .error (), true⟩)),
   tick_refreshes_only_stale.2.1 "u"
      (writtenEntry "u" 0 [⟨"t", "l", "d", none, "u"⟩]) ⟨1, .error (), true⟩
      [⟨"t", "l", "d", none, "u"⟩] (by decide),
   tick_refreshes_only_stale.2.2 "u" ⟨.error (), .error ()⟩
      ⟨1, .error (), true⟩ rfl⟩

/-! ## Relevance-score claim (C3) -/

/-- The spec-side quantity of claim C3: the number of **distinct** keywords
occurring as substrings of `txt` (duplicates in the keyword list counted
once). -/
def distinctMatchCount (keywords : List String) (txt : String) : Nat :=
  (keywords.dedup.filter (fun kw => jsIncludes txt kw)).length

theorem jsSetDedup_nodup (l : List String) : (jsSetDedup l).Nodup := by
  have h := firstWins_keys_nodup (fun s => s) l []
  simpa [jsSetDedup, firstWins, id] using h

theorem extractKeywords_nodup (stem : String → String) (input : String) :
    (extractKeywords stem input).Nodup := by
  rw [extractKeywords]
  exact jsSetDedup_nodup _

/-- Claim C3: for every extracted keyword set, the relevance score is
`2 × (number of distinct keywords occurring as substrings of the lowercased
title) + 1 × (number of distinct keywords occurring as substrings of the
lowercased description)` — a keyword counts at most once per field no matter
how often it occurs there, since the match count is a count over the
(duplicate-free) keyword list, not an occurrence count; in particular a
listing matching a single keyword only in its title scores 2, only in its
description scores 1, and in both scores 3. -/
theorem relevanceScore_distinct_counts (stem : String → String) (query : String)
    (job : CachedJob) :
    (relevanceScore (extractKeywords stem query) job =
      2 * distinctMatchCount (extractKeywords stem query) (jsToLower job.title) +
        distinctMatchCount (extractKeywords stem query) (jsToLower job.description)) ∧
    (∀ (kw : String) (j : CachedJob),
      jsIncludes (jsToLower j.title) kw = true →
      jsIncludes (jsToLower j.description) kw = false →
      relevanceScore [kw] j = 2) ∧
    (∀ (kw : String) (j : CachedJob),
      jsIncludes (jsToLower j.title) kw = false →
      jsIncludes (jsToLower j.description) kw = true →
      relevanceScore [kw] j = 1) ∧
    (∀ (kw : String) (j : CachedJob),
      jsIncludes (jsToLower j.title) kw = true →
      jsIncludes (jsToLower j.description) kw = true →
      relevanceScore [kw] j = 3) := by
  refine ⟨?_, ?_, ?_, ?_⟩
  · have hnd : (extractKeywords stem query).Nodup := extractKeywords_nodup stem query
    rw [relevanceScore, titleMatchCount, descMatchCount,
      distinctMatchCount, distinctMatchCount, List.dedup_eq_self.mpr hnd]
    omega
  · intro kw j h1 h2
    simp [relevanceScore, titleMatchCount, descMatchCount, List.filter, h1, h2]
  · intro kw j h1 h2
    simp [relevanceScore, titleMatchCount, descMatchCount, List.filter, h1, h2]
  · intro kw j h1 h2
    simp [relevanceScore, titleMatchCount, descMatchCount, List.filter, h1, h2]

/-- Witness for C3, with the spec's own example keyword `"flutter"`: a job
with `"flutter"` only in the title scores 2, only in the description scores
1, in both scores 3, and the general distinct-count formula instantiates on a
query whose repeated word is extracted once. -/
theorem relevanceScore_distinct_counts_witness :
    relevanceScore (extractKeywords id "flutter flutter")
        ⟨"Flutter Developer", "l", "nothing here", none, "f"⟩ =
      2 * distinctMatchCount (extractKeywords id "flutter flutter")
            (jsToLower "Flutter Developer") +
        distinctMatchCount (extractKeywords id "flutter flutter")
          (jsToLower "nothing here") ∧
    relevanceScore ["flutter"] ⟨"Flutter Developer", "l", "nothing", none, "f"⟩ = 2 ∧
    relevanceScore ["flutter"] ⟨"Engineer", "l", "uses flutter daily", none, "f"⟩ = 1 ∧
    relevanceScore ["flutter"] ⟨"Flutter Developer", "l", "flutter flutter", none, "f"⟩ = 3 :=
  ⟨(relevanceScore_distinct_counts id "flutter flutter"
      ⟨"Flutter Developer", "l", "nothing here", none, "f"⟩).1,
   (relevanceScore_distinct_counts id ""
      ⟨"", "", "", none, ""⟩).2.1 "flutter"
      ⟨"Flutter Developer", "l", "nothing", none, "f"⟩ (by decide) (by decide),
   (relevanceScore_distinct_counts id ""
      ⟨"", "", "", none, ""⟩).2.2.1 "flutter"
      ⟨"Engineer", "l", "uses flutter daily", none, "f"⟩ (by decide) (by decide),
   (relevanceScore_distinct_counts id ""
      ⟨"", "", "", none, ""⟩).2.2.2 "flutter"
      ⟨"Flutter Developer", "l", "flutter flutter", none, "f"⟩ (by decide) (by decide)⟩

/-! ## Cache filename claim (C8) -/

theorem b64Char_mem (n : Nat) : b64Char n ∈ base64Alphabet := by
  rw [b64Char]
  rcases Nat.lt_or_ge n base64Alphabet.length with h | h
  · rw [List.getD_eq_getElem base64Alphabet 'A' h]
    exact List.getElem_mem h
  · rw [List.getD_eq_default base64Alphabet 'A' h]
    decide

theorem base64Encode_chars :
    ∀ (bs : List Nat) (c : Char), c ∈ base64Encode bs →
      c ∈ base64Alphabet ∨ c = '=' := by
  intro bs
  induction bs using base64Encode.induct with
  | case1 b0 b1 b2 rest ih =>
    intro c hc
    simp only [base64Encode, List.mem_cons] at hc
    rcases hc with rfl | rfl | rfl | rfl | hc
    · exact Or.inl (b64Char_mem _)
    · exact Or.inl (b64Char_mem _)
    · exact Or.inl (b64Char_mem _)
    · exact Or.inl (b64Char_mem _)
    · exact ih c hc
  | case2 b0 b1 =>
    intro c hc
    simp only [base64Encode, List.mem_cons] at hc
    rcases hc with rfl | rfl | rfl | rfl | hc
    · exact Or.inl (b64Char_mem _)
    · exact Or.inl (b64Char_mem _)
    · exact Or.inl (b64Char_mem _)
    · exact Or.inr rfl
    · simp at hc
  | case3 b0 =>
    intro c hc
    simp only [base64Encode, List.mem_cons] at hc
    rcases hc with rfl | rfl | rfl | rfl | hc
    · exact Or.inl (b64Char_mem _)
    · exact Or.inl (b64Char_mem _)
    · exact Or.inr rfl
    · exact Or.inr rfl
    · simp at hc
  | case4 =>
    intro c hc
    simp [base64Encode] at hc

/-- Claim C8 is false on the code: `getCacheFilename` maps the base64
characters `/`, `+` and `=` all to the same `_`, so the URL-to-filename map
is not injective.  The distinct strings `"~~~"` (base64 `fn5+`) and
`"~~\x7F"` (base64 `fn5/`) receive the same cache filename `fn5_.json`. -/
theorem getCacheFilename_collision :
    getCacheFilename "~~~" = getCacheFilename "~~\x7F" ∧
    "~~~" ≠ "~~\x7F" ∧
    getCacheFilename "~~~" = "fn5_.json" := by
  refine ⟨by decide, by decide, by decide⟩

/-- Claim C8, amended: the cache key is stable (a pure function of the URL)
and filesystem-safe — every character of the hash part is a base64
alphanumeric or the replacement `_` — but it is **not** collision-resistant:
distinct URLs can share a filename, since the lossy `/[/+=]/ → _` replacement
of plain base64 is not injective. -/
theorem cacheHash_filesystem_safe (feedUrl : String) :
    ∀ c ∈ (cacheHash feedUrl).toList, c.isAlphanum = true ∨ c = '_' := by
  intro c hc
  have hlist : (cacheHash feedUrl).toList =
      (base64Encode (utf8Bytes feedUrl)).map fsSafeChar := rfl
  rw [hlist] at hc
  obtain ⟨c', hc', rfl⟩ := List.mem_map.mp hc
  rcases base64Encode_chars (utf8Bytes feedUrl) c' hc' with hmem | rfl
  · by_cases hrepl : c' = '/' ∨ c' = '+' ∨ c' = '='
    · rw [fsSafeChar, if_pos hrepl]
      exact Or.inr rfl
    · rw [fsSafeChar, if_neg hrepl]
      left
      have hall : ∀ x ∈ base64Alphabet,
          ¬(x = '/' ∨ x = '+' ∨ x = '=') → x.isAlphanum = true := by decide
      exact hall c' hmem hrepl
  · rw [fsSafeChar]
    simp

/-- Witness for the amended C8: the hash of `"x"` is `"eA__"`; its characters
are base64 alphanumerics or `_`. -/
theorem cacheHash_filesystem_safe_witness :
    cacheHash "x" = "eA__" ∧
    ('e' ∈ (cacheHash "x").toList ∧ ('e'.isAlphanum = true ∨ 'e' = '_')) ∧
    ('_' ∈ (cacheHash "x").toList ∧ ('_'.isAlphanum = true ∨ '_' = '_')) :=
  ⟨by decide,
   ⟨by decide, cacheHash_filesystem_safe "x" 'e' (by decide)⟩,
   ⟨by decide, cacheHash_filesystem_safe "x" '_' (by decide)⟩⟩

/-! ## Sorting claim (C4) -/

/-- Boolean `≤` on JavaScript numbers; false as soon as `NaN` is involved
(mirroring that every numeric comparison with `NaN` is false). -/
def jsNumLe : JSNum → JSNum → Bool
  | .num a, .num b => decide (a ≤ b)
  | _, _ => false

theorem mem_insertStable (le : α → α → Bool) (x : α) :
    ∀ (l : List α) (a : α), a ∈ insertStable le x l ↔ a = x ∨ a ∈ l := by
  intro l
  induction l with
  | nil => intro a; simp [insertStable]
  | cons y ys ih =>
    intro a
    rw [insertStable]
    by_cases h : le y x = true
    · rw [if_pos h]
      simp only [List.mem_cons, ih]
      tauto
    · rw [if_neg h]
      simp only [List.mem_cons]

theorem insertStable_pairwise (le : α → α → Bool) (G : α → Prop)
    (htot : ∀ a b, le a b = true ∨ le b a = true)
    (htrans : ∀ a b c, G a → G b → G c →
      le a b = true → le b c = true → le a c = true) :
    ∀ (l : List α) (x : α), G x → (∀ y ∈ l, G y) →
      l.Pairwise (fun a b => le a b = true) →
      (insertStable le x l).Pairwise (fun a b => le a b = true) := by
  intro l
  induction l with
  | nil =>
    intro x _ _ _
    simp [insertStable]
  | cons y ys ih =>
    intro x hx hall hp
    rw [insertStable]
    rw [List.pairwise_cons] at hp
    obtain ⟨hy_ys, hp_ys⟩ := hp
    by_cases h : le y x = true
    · rw [if_pos h]
      rw [List.pairwise_cons]
      constructor
      · intro a ha
        rcases (mem_insertStable le x ys a).mp ha with rfl | ha'
        · exact h
        · exact hy_ys a ha'
      · exact ih x hx (fun z hz => hall z (List.mem_cons_of_mem _ hz)) hp_ys
    · rw [if_neg h]
      have hxy : le x y = true := by
        rcases htot x y with h' | h'
        · exact h'
        · exact absurd h' h
      rw [List.pairwise_cons]
      constructor
      · intro a ha
        rcases List.mem_cons.mp ha with rfl | ha'
        · exact hxy
        · exact htrans x y a hx (hall y (List.mem_cons_self _ _))
            (hall a (List.mem_cons_of_mem _ ha')) hxy (hy_ys a ha')
      · rw [List.pairwise_cons]
        exact ⟨hy_ys, hp_ys⟩

theorem foldl_insertStable_mem (le : α → α → Bool) :
    ∀ (l acc : List α) (a : α),
      a ∈ List.foldl (fun acc x => insertStable le x acc) acc l ↔
        a ∈ acc ∨ a ∈ l := by
  intro l
  induction l with
  | nil => intro acc a; simp
  | cons x xs ih =>
    intro acc a
    simp only [List.foldl_cons, List.mem_cons]
    rw [ih, mem_insertStable]
    tauto

theorem jsSort_mem (le : α → α → Bool) (l : List α) (a : α) :
    a ∈ jsSort le l ↔ a ∈ l := by
  rw [jsSort, foldl_insertStable_mem]
  simp

theorem jsSort_pairwise (le : α → α → Bool) (G : α → Prop)
    (htot : ∀ a b, le a b = true ∨ le b a = true)
    (htrans : ∀ a b c, G a → G b → G c →
      le a b = true → le b c = true → le a c = true) :
    ∀ (l acc : List α), (∀ y ∈ l, G y) → (∀ y ∈ acc, G y) →
      acc.Pairwise (fun a b => le a b = true) →
      (List.foldl (fun acc x => insertStable le x acc) acc l).Pairwise
        (fun a b => le a b = true) := by
  intro l
  induction l with
  | nil => intro acc _ _ hp; simpa using hp
  | cons x xs ih =>
    intro acc hl hacc hp
    simp only [List.foldl_cons]
    refine ih (insertStable le x acc)
      (fun y hy => hl y (List.mem_cons_of_mem _ hy)) ?_ ?_
    · intro y hy
      rcases (mem_insertStable le x acc y).mp hy with rfl | hy'
      · exact hl y (List.mem_cons_self _ _)
      · exact hacc y hy'
    · exact insertStable_pairwise le G htot htrans acc x
        (hl x (List.mem_cons_self _ _)) hacc hp

theorem jsCmpLe_total (g : String → JSNum) (a b : ScoredJob) :
    jsCmpLe g a b = true ∨ jsCmpLe g b a = true := by
  rw [jsCmpLe, jsCmpLe, jsCompare, jsCompare]
  by_cases h : b.relevanceScore = a.relevanceScore
  · rw [if_neg (by simpa using h), if_neg (by simp [h])]
    cases hA : dateKey g a.job.pubDate with
    | nan => cases dateKey g b.job.pubDate <;> simp [jsSub]
    | num da =>
      cases hB : dateKey g b.job.pubDate with
      | nan => simp [jsSub]
      | num db => simp only [jsSub, decide_eq_true_eq]; omega
  · rw [if_pos (by simpa using h), if_pos (by simp; exact fun h' => h h'.symm)]
    simp only [decide_eq_true_eq]
    omega

theorem jsCmpLe_iff_of_num (g : String → JSNum) (a b : ScoredJob) (da db : Int)
    (ha : dateKey g a.job.pubDate = .num da)
    (hb : dateKey g b.job.pubDate = .num db) :
    jsCmpLe g a b = true ↔
      (b.relevanceScore < a.relevanceScore ∨
        (a.relevanceScore = b.relevanceScore ∧ db ≤ da)) := by
  rw [jsCmpLe, jsCompare]
  by_cases h : b.relevanceScore = a.relevanceScore
  · rw [if_neg (by simpa using h), ha, hb]
    simp only [jsSub, decide_eq_true_eq]
    omega
  · rw [if_pos (by simpa using h)]
    simp only [decide_eq_true_eq]
    omega

theorem jsCmpLe_trans_of_num (g : String → JSNum) (a b c : ScoredJob)
    (ha : dateKey g a.job.pubDate ≠ JSNum.nan)
    (hb : dateKey g b.job.pubDate ≠ JSNum.nan)
    (hc : dateKey g c.job.pubDate ≠ JSNum.nan)
    (hab : jsCmpLe g a b = true) (hbc : jsCmpLe g b c = true) :
    jsCmpLe g a c = true := by
  obtain ⟨da, hda⟩ : ∃ n, dateKey g a.job.pubDate = .num n := by
    cases h : dateKey g a.job.pubDate with
    | num n => exact ⟨n, rfl⟩
    | nan => exact absurd h ha
  obtain ⟨db, hdb⟩ : ∃ n, dateKey g b.job.pubDate = .num n := by
    cases h : dateKey g b.job.pubDate with
    | num n => exact ⟨n, rfl⟩
    | nan => exact absurd h hb
  obtain ⟨dc, hdc⟩ : ∃ n, dateKey g c.job.pubDate = .num n := by
    cases h : dateKey g c.job.pubDate with
    | num n => exact ⟨n, rfl⟩
    | nan => exact absurd h hc
  rw [jsCmpLe_iff_of_num g a b da db hda hdb] at hab
  rw [jsCmpLe_iff_of_num g b c db dc hdb hdc] at hbc
  rw [jsCmpLe_iff_of_num g a c da dc hda hdc]
  omega

/-- Claim C4 is false on the code for unparseable dates: `new Date(s)` on an
unparseable string has `getTime() = NaN`, the comparator then returns `NaN`,
and the sort leaves the pair in input order instead of sorting the listing
after listings with valid dates.  Concretely: two listings with equal
relevance score, the first with an unparseable `pubDate` (`"bad"`), the
second with a valid one (`"d"`, timestamp 5000); the claim says the first
must sort after the second, but the pipeline returns them in input order,
unparseable first. -/
theorem sort_unparseable_not_minimum :
    (executeModel id (fun s => if s = "d" then JSNum.num 5000 else JSNum.nan)
        ["f"]
        (fun _ => [⟨"flutter dev", "a", "", some "bad", "f"⟩,
                   ⟨"flutter eng", "b", "", some "d", "f"⟩])
        "flutter" 10).jobs =
      [⟨"flutter dev", "a", "", some "bad", "f"⟩,
       ⟨"flutter eng", "b", "", some "d", "f"⟩] ∧
    relevanceScore (extractKeywords id "flutter")
        ⟨"flutter dev", "a", "", some "bad", "f"⟩ =
      relevanceScore (extractKeywords id "flutter")
        ⟨"flutter eng", "b", "", some "d", "f"⟩ ∧
    dateKey (fun s => if s = "d" then JSNum.num 5000 else JSNum.nan)
        (some "bad") = JSNum.nan ∧
    dateKey (fun s => if s = "d" then JSNum.num 5000 else JSNum.nan)
        (some "d") = JSNum.num 5000 := by
  refine ⟨by decide, by decide, by decide, by decide⟩

/-- Claim C4, amended: the returned job list is sorted by `relevanceScore`
descending; among listings with equal score whose date keys are numbers, the
more recent date comes first, where a **missing** (or empty) `pubDate` is
keyed as epoch `0` — not as the minimum date — and a listing whose `pubDate`
fails to parse has the key `NaN`, which the comparator treats as a tie, so
such a listing keeps its relative position instead of sorting last.  The
sortedness statement assumes every listing's date key is a number (no
unparseable dates), which is exactly where the original claim breaks. -/
theorem execute_sorted_by_score_then_date (stem : String → String)
    (g : String → JSNum) (feeds : List String)
    (fetchRes : String → List CachedJob) (query : String) (limit : Nat)
    (hgood : ∀ j ∈ (feeds.map fetchRes).flatten, dateKey g j.pubDate ≠ JSNum.nan) :
    (executeModel stem g feeds fetchRes query limit).jobs.Pairwise
      (fun x y =>
        relevanceScore (extractKeywords stem query) y <
            relevanceScore (extractKeywords stem query) x ∨
          (relevanceScore (extractKeywords stem query) x =
              relevanceScore (extractKeywords stem query) y ∧
            jsNumLe (dateKey g y.pubDate) (dateKey g x.pubDate) = true)) ∧
    dateKey g none = JSNum.num 0 := by
  refine ⟨?_, rfl⟩
  rw [executeModel]
  by_cases hkw : (extractKeywords stem query).length = 0
  · rw [if_pos hkw]
    simp
  · rw [if_neg hkw]
    simp only
    set kws := extractKeywords stem query with hkws
    set allJobs := (feeds.map fetchRes).flatten with hall
    set matched := (deduplicateJobs allJobs).filter
      (fun job => titleMatchCount kws job + descMatchCount kws job > 0)
      with hmatched
    have hmatched_sub : ∀ j ∈ matched, j ∈ allJobs := by
      intro j hj
      have h1 : j ∈ deduplicateJobs allJobs := List.mem_of_mem_filter hj
      exact (firstWins_sublist linkKey allJobs []).subset h1
    set scored := matched.map (fun job => (⟨job, relevanceScore kws job⟩ : ScoredJob))
      with hscored
    have hscore_good : ∀ s ∈ scored, dateKey g s.job.pubDate ≠ JSNum.nan ∧
        s.relevanceScore = relevanceScore kws s.job := by
      intro s hs
      obtain ⟨j, hj, rfl⟩ := List.mem_map.mp hs
      exact ⟨hgood j (hmatched_sub j hj), rfl⟩
    have hpair : (jsSort (jsCmpLe g) scored).Pairwise
        (fun a b => jsCmpLe g a b = true) := by
      rw [jsSort]
      refine jsSort_pairwise (jsCmpLe g)
        (fun s => dateKey g s.job.pubDate ≠ JSNum.nan)
        (jsCmpLe_total g)
        (fun a b c ha hb hc => jsCmpLe_trans_of_num g a b c ha hb hc)
        scored [] (fun y hy => (hscore_good y hy).1) (by simp) (by simp)
    have hpair2 : (jsSort (jsCmpLe g) scored).Pairwise
        (fun a b =>
          relevanceScore kws b.job < relevanceScore kws a.job ∨
            (relevanceScore kws a.job = relevanceScore kws b.job ∧
              jsNumLe (dateKey g b.job.pubDate) (dateKey g a.job.pubDate) = true)) := by
      refine hpair.imp_of_mem ?_
      intro a b hamem hbmem hab
      have hga := hscore_good a ((jsSort_mem (jsCmpLe g) scored a).mp hamem)
      have hgb := hscore_good b ((jsSort_mem (jsCmpLe g) scored b).mp hbmem)
      obtain ⟨da, hda⟩ : ∃ n, dateKey g a.job.pubDate = .num n := by
        cases h : dateKey g a.job.pubDate with
        | num n => exact ⟨n, rfl⟩
        | nan => exact absurd h hga.1
      obtain ⟨db, hdb⟩ : ∃ n, dateKey g b.job.pubDate = .num n := by
        cases h : dateKey g b.job.pubDate with
        | num n => exact ⟨n, rfl⟩
        | nan => exact absurd h hgb.1
      rw [jsCmpLe_iff_of_num g a b da db hda hdb] at hab
      rw [hda, hdb]
      rw [hga.2, hgb.2] at hab
      rcases hab with h | ⟨h1, h2⟩
      · exact Or.inl h
      · refine Or.inr ⟨h1, ?_⟩
        simp [jsNumLe, h2]
    have htake : ((rankedJobs g kws matched).take limit).Pairwise
        (fun a b =>
          relevanceScore kws b.job < relevanceScore kws a.job ∨
            (relevanceScore kws a.job = relevanceScore kws b.job ∧
              jsNumLe (dateKey g b.job.pubDate) (dateKey g a.job.pubDate) = true)) := by
      rw [rankedJobs, ← hscored]
      exact hpair2.sublist (List.take_sublist _ _)
    rw [List.pairwise_map]
    exact htake

/-- Witness for the amended C4: two listings with scores 2 and 1 and numeric
date keys; the pipeline output satisfies the descending score/date ordering. -/
theorem execute_sorted_by_score_then_date_witness :
    (executeModel id (fun _ => JSNum.num 1) ["f"]
        (fun _ => [⟨"other flutter note", "a", "flutter", some "t", "f"⟩,
                   ⟨"flutter dev", "b", "", some "t", "f"⟩])
        "flutter" 10).jobs.Pairwise
      (fun x y =>
        relevanceScore (extractKeywords id "flutter") y <
            relevanceScore (extractKeywords id "flutter") x ∨
          (relevanceScore (extractKeywords id "flutter") x =
              relevanceScore (extractKeywords id "flutter") y ∧
            jsNumLe (dateKey (fun _ => JSNum.num 1) y.pubDate)
                (dateKey (fun _ => JSNum.num 1) x.pubDate) = true)) ∧
    dateKey (fun _ => JSNum.num 1) none = JSNum.num 0 :=
  execute_sorted_by_score_then_date id (fun _ => JSNum.num 1) ["f"]
    (fun _ => [⟨"other flutter note", "a", "flutter", some "t", "f"⟩,
               ⟨"flutter dev", "b", "", some "t", "f"⟩])
    "flutter" 10 (by decide)

end TechJobs
